import Mathlib

/-!
Verification of the goasciinema capture/replay core.

Shallow embedding of the asciicast v2 codec (`internal/asciicast/v2.go`,
`internal/asciicast/types.go`), the replay engine (`internal/player`),
and the capture-dimension resolution of `internal/recorder/recorder.go`.

Modelling conventions:
* IEEE-754 doubles are modelled as exact rationals (`ℚ`); Go's JSON
  encoding of `float64` round-trips exactly, so rational arithmetic
  tracks every value the code stores and compares.
* The on-disk file is modelled line-by-line (`bufio.Reader.ReadBytes('\n')`
  yields lines): each line is either blank (content of length ≤ 1,
  i.e. a bare newline), a line holding one valid JSON value, or a
  non-blank line that JSON parsing rejects.  The flag `terminated`
  records whether the final line ends with a newline character, which
  `ReadBytes` reports through its error return.
* Go `map[string]string` values are modelled as association lists
  (Go marshals maps with sorted, duplicate-free keys).
-/

namespace Goasciinema

/-- A JSON value, as produced by `encoding/json` unmarshalling into
`interface\x7b\x7d`: numbers become `float64` (here `ℚ`), strings stay
strings, arrays become `[]interface\x7b\x7d`, objects become maps. -/
inductive Json where
  | num (q : ℚ)
  | str (s : String)
  | bool (b : Bool)
  | null
  | arr (elems : List Json)
  | obj (fields : List (String × Json))

/-- One physical line of an asciicast file, as seen by
`bufio.Reader.ReadBytes('\n')` followed by `json.Unmarshal`:
`blank` is a line of length ≤ 1 (a bare newline), `json` a line whose
content parses as the given JSON value, `bad` a non-blank line that
JSON parsing rejects. -/
inductive FLine where
  | blank
  | json (j : Json)
  | bad

/-- A file: its lines, and whether the final line is newline-terminated
(`ReadBytes` returns the trailing fragment together with `io.EOF` when
it is not, and every caller in `v2.go` then discards that fragment). -/
structure VFile where
  lines : List FLine
  terminated : Bool

/-- Model: `asciicast.Theme` (types.go): terminal colour theme, all fields
`omitempty`. -/
structure Theme where
  fg : String
  bg : String
  palette : String
deriving DecidableEq

/-- Model: `asciicast.Header` (types.go).  `Env` is a `map[string]string`,
modelled as an association list; `Theme` is a nullable pointer. -/
structure Header where
  version : ℤ
  width : ℤ
  height : ℤ
  timestamp : ℤ
  duration : ℚ
  idleTimeLimit : ℚ
  command : String
  title : String
  env : List (String × String)
  theme : Option Theme
deriving DecidableEq

/-- Model: `asciicast.Event` (types.go): relative time, kind tag, payload. -/
structure Event where
  time : ℚ
  type : String
  data : String
deriving DecidableEq

/-- Model: `asciicast.EventTypeOutput`. -/
def EventTypeOutput : String := "o"

/-- Model: `asciicast.EventTypeInput`. -/
def EventTypeInput : String := "i"

/-- Model: `asciicast.EventTypeMarker`. -/
def EventTypeMarker : String := "m"

/-- Model: `asciicast.EventTypeResize`. -/
def EventTypeResize : String := "r"

/-- Go's `int64(x)` conversion from `float64`: truncation toward zero. -/
def truncQ (q : ℚ) : ℤ := if 0 ≤ q then ⌊q⌋ else ⌈q⌉

/-- Model: `roundTimestamp` (v2.go:224): `float64(int64(t*1000000)) / 1000000`. -/
def roundTimestamp (t : ℚ) : ℚ := (truncQ (t * 1000000) : ℚ) / 1000000

/-- The JSON array `json.Marshal` emits for one event in
`Writer.WriteEvent` (v2.go:73): `[roundTimestamp(time+offset), type, data]`. -/
def eventJson (off : ℚ) (e : Event) : Json :=
  .arr [.num (roundTimestamp (e.time + off)), .str e.type, .str e.data]

/-- A stored event line with its timestamp exactly as written on disk
(used to describe pre-existing files). -/
def eventLine (e : Event) : FLine :=
  .json (.arr [.num e.time, .str e.type, .str e.data])

/-- Model: `json.Marshal` of an `asciicast.Theme` value: fields in struct
order, each omitted when empty (`omitempty`). -/
def themeJson (th : Theme) : Json :=
  .obj ((if th.fg = "" then [] else [("fg", .str th.fg)])
    ++ (if th.bg = "" then [] else [("bg", .str th.bg)])
    ++ (if th.palette = "" then [] else [("palette", .str th.palette)]))

/-- Model: `json.Marshal` of an `asciicast.Header` value: fields in struct
order with their json tags; `timestamp`, `duration`, `idle_time_limit`,
`command`, `title`, `env`, `theme` carry `omitempty` and are dropped at
their zero values (0, 0, 0, "", "", empty map, nil pointer). -/
def headerJson (h : Header) : Json :=
  .obj ([("version", .num (h.version : ℚ)), ("width", .num (h.width : ℚ)),
      ("height", .num (h.height : ℚ))]
    ++ ((if h.timestamp = 0 then [] else [("timestamp", .num (h.timestamp : ℚ))])
    ++ ((if h.duration = 0 then [] else [("duration", .num h.duration)])
    ++ ((if h.idleTimeLimit = 0 then [] else [("idle_time_limit", .num h.idleTimeLimit)])
    ++ ((if h.command = "" then [] else [("command", .str h.command)])
    ++ ((if h.title = "" then [] else [("title", .str h.title)])
    ++ ((if h.env = [] then [] else [("env", .obj (h.env.map fun p => (p.1, .str p.2)))])
    ++ (match h.theme with | none => [] | some th => [("theme", themeJson th)]))))))))

/-- The header with Go zero values in every field — the state of
`var header Header` before `json.Unmarshal` fills it in. -/
def zeroHeader : Header := ⟨0, 0, 0, 0, 0, 0, "", "", [], none⟩

/-- Model: `json.Unmarshal` of one object member into a `map[string]string`
entry: the value must be a JSON string (`null` leaves the zero value). -/
def parseEnv : List (String × Json) → Option (List (String × String))
  | [] => some []
  | (k, .str s) :: rest => (parseEnv rest).map fun e => (k, s) :: e
  | (k, .null) :: rest => (parseEnv rest).map fun e => (k, "") :: e
  | _ => none

/-- Model: `json.Unmarshal` of one JSON value into a string-typed struct
field: a string sets it, `null` is a no-op, anything else aborts. -/
def setStr {α : Type} (keep : α) (j : Json) (set : String → α) : Option α :=
  match j with
  | .str s => some (set s)
  | .null => some keep
  | _ => none

/-- Model: `json.Unmarshal` of one JSON value into an integer-typed struct
field: the number literal must be integral, `null` is a no-op,
anything else aborts. -/
def setInt (keep : Header) (j : Json) (set : ℤ → Header) : Option Header :=
  match j with
  | .num q => if q.den = 1 then some (set q.num) else none
  | .null => some keep
  | _ => none

/-- Model: `json.Unmarshal` of one JSON value into a `float64` struct field. -/
def setRat (keep : Header) (j : Json) (set : ℚ → Header) : Option Header :=
  match j with
  | .num q => some (set q)
  | .null => some keep
  | _ => none

/-- Model: `json.Unmarshal` of one object member into a `Theme` struct:
known keys must hold strings (`null` is a no-op), unknown keys are
ignored, a wrong type aborts the whole unmarshal. -/
def parseThemeField (th : Theme) (kv : String × Json) : Option Theme :=
  if kv.1 = "fg" then setStr th kv.2 fun s => { th with fg := s }
  else if kv.1 = "bg" then setStr th kv.2 fun s => { th with bg := s }
  else if kv.1 = "palette" then setStr th kv.2 fun s => { th with palette := s }
  else some th

/-- Folds `parseThemeField` over the members of a JSON object, later
duplicate keys overwriting earlier ones (Go's decode order). -/
def parseThemeFields : List (String × Json) → Theme → Option Theme
  | [], th => some th
  | kv :: rest, th =>
    match parseThemeField th kv with
    | some th' => parseThemeFields rest th'
    | none => none

/-- Model: `json.Unmarshal` of one object member into a `Header` struct:
integer-tagged fields require an integral JSON number, float fields any
number, string fields a string; `env` requires an object of strings,
`theme` an object or `null` (null resets the pointer to nil); `null`
into a non-pointer field is a no-op; unknown keys are ignored. -/
def parseHeaderField (h : Header) (kv : String × Json) : Option Header :=
  if kv.1 = "version" then setInt h kv.2 fun z => { h with version := z }
  else if kv.1 = "width" then setInt h kv.2 fun z => { h with width := z }
  else if kv.1 = "height" then setInt h kv.2 fun z => { h with height := z }
  else if kv.1 = "timestamp" then setInt h kv.2 fun z => { h with timestamp := z }
  else if kv.1 = "duration" then setRat h kv.2 fun q => { h with duration := q }
  else if kv.1 = "idle_time_limit" then setRat h kv.2 fun q => { h with idleTimeLimit := q }
  else if kv.1 = "command" then setStr h kv.2 fun s => { h with command := s }
  else if kv.1 = "title" then setStr h kv.2 fun s => { h with title := s }
  else if kv.1 = "env" then
    match kv.2 with
    | .obj fs => (parseEnv fs).map fun e => { h with env := e }
    | .null => some h
    | _ => none
  else if kv.1 = "theme" then
    match kv.2 with
    | .obj fs => (parseThemeFields fs ⟨"", "", ""⟩).map fun th => { h with theme := some th }
    | .null => some { h with theme := none }
    | _ => none
  else some h

/-- Folds `parseHeaderField` over the members of a JSON object. -/
def parseHeaderFields : List (String × Json) → Header → Option Header
  | [], h => some h
  | kv :: rest, h =>
    match parseHeaderField h kv with
    | some h' => parseHeaderFields rest h'
    | none => none

/-- Model: `json.Unmarshal(headerLine, &header)` in `Open` (v2.go:143): the
line must be a JSON object (or `null`, which leaves the zero value). -/
def parseHeader : Json → Option Header
  | .obj fs => parseHeaderFields fs zeroHeader
  | .null => some zeroHeader
  | _ => none

/-- Model: `Reader.ReadEvent`'s event decoding (v2.go:170-192): unmarshal into
`[]interface\x7b\x7d`, require at least 3 elements, assert element 0 is a
number, elements 1 and 2 strings; extra elements are ignored. -/
def parseEvent : Json → Option Event
  | .arr (.num t :: .str k :: .str d :: _) => some ⟨t, k, d⟩
  | _ => none

/-- The error taxonomy of the codec (§7 of the spec): filesystem/read
failures vs. malformed content. -/
inductive CodecError where
  | ioError
  | formatError
deriving DecidableEq

/-- Model: `asciicast.Writer`: the open file plus the continuation time
offset.  (The `sync.Mutex` serializes `WriteEvent` calls; the model
works with the sequential order that the lock produces.) -/
structure Writer where
  file : VFile
  timeOffset : ℚ

/-- Appending one marshalled line plus `"\n"` to the file with
`O_APPEND` semantics: if the existing final line was unterminated the
new bytes concatenate onto it, producing one garbage line. -/
def appendLine (f : VFile) (l : FLine) : VFile :=
  if f.terminated ∨ f.lines.isEmpty then ⟨f.lines ++ [l], true⟩
  else ⟨f.lines.dropLast ++ [.bad], true⟩

/-- Model: `Writer.WriteEvent` (v2.go:65): add the continuation offset to the
event time, round, marshal `[t, type, data]`, write the line. -/
def WriteEvent (w : Writer) (e : Event) : Writer :=
  ⟨appendLine w.file (.json (eventJson w.timeOffset e)), w.timeOffset⟩

/-- The scanning loop of `getLastTimestamp` (v2.go:244-264): read lines
until EOF (an unterminated final line ends the loop before its data is
examined), skip blank lines, skip lines that fail to unmarshal, and
remember the first element of every array whose first element is a
number. -/
def lastTimestampScan : List FLine → Bool → ℚ → ℚ
  | [], _, acc => acc
  | l :: rest, term, acc =>
    if rest.isEmpty ∧ term = false then acc
    else
      lastTimestampScan rest term
        (match l with
          | .json (.arr (.num t :: _)) => t
          | _ => acc)

/-- Model: `getLastTimestamp` (v2.go:228): open the file, skip the first line
(the header — its content is never parsed), then scan the remaining
lines; fails only when the first line cannot be read in full. -/
def getLastTimestamp (f : VFile) : Except CodecError ℚ :=
  match f.lines with
  | [] => .error .ioError
  | _ :: rest =>
    if rest.isEmpty ∧ f.terminated = false then .error .ioError
    else .ok (lastTimestampScan rest f.terminated 0)

/-- Model: `NewWriter` (v2.go:20): in append mode with an existing non-empty
file, establish the continuation offset via `getLastTimestamp` and open
for append; otherwise create/truncate and write the marshalled header
as the first line.  `existing = some f` models a file present at the
path with content `f`; `none` models no file. -/
def NewWriter (existing : Option VFile) (header : Header) (ap : Bool) :
    Except CodecError Writer :=
  match ap, existing with
  | true, some f =>
    if f.lines.isEmpty then .ok ⟨⟨[.json (headerJson header)], true⟩, 0⟩
    else
      match getLastTimestamp f with
      | .error e => .error e
      | .ok off => .ok ⟨f, off⟩
  | _, _ => .ok ⟨⟨[.json (headerJson header)], true⟩, 0⟩

/-- Model: `asciicast.Reader` after `Open`: the parsed header and the
not-yet-consumed portion of the file. -/
structure Reader where
  header : Header
  lines : List FLine
  terminated : Bool

/-- Model: `Open` (v2.go:127): read the first line (failing when the file is
empty or the first line is unterminated) and unmarshal it as a header. -/
def Open (f : VFile) : Except CodecError Reader :=
  match f.lines with
  | [] => .error .ioError
  | l :: rest =>
    if rest.isEmpty ∧ f.terminated = false then .error .ioError
    else
      match l with
      | .json j =>
        match parseHeader j with
        | some h => .ok ⟨h, rest, f.terminated⟩
        | none => .error .formatError
      | _ => .error .formatError

/-- The outcome of one `Reader.ReadEvent` call. -/
inductive ReadResult where
  | ok (e : Event)
  | eos
  | formatError
deriving DecidableEq

/-- Model: `Reader.ReadEvent` (v2.go:156): read the next line (EOF — including
an unterminated final line, whose data `ReadBytes` hands back together
with `io.EOF` and which the code then discards — yields end of stream),
skip blank lines by recursing, and decode the rest via `parseEvent`. -/
def ReadEvent (term : Bool) : List FLine → ReadResult
  | [] => .eos
  | l :: rest =>
    if rest.isEmpty ∧ term = false then .eos
    else
      match l with
      | .blank => ReadEvent term rest
      | .bad => .formatError
      | .json j =>
        match parseEvent j with
        | some e => .ok e
        | none => .formatError

/-- Draining a reader by calling `ReadEvent` until `EndOfStream` or a
format error, as the player and cat loops do: returns the events read,
and the error that ended the loop (if any). -/
def readAllEvents (term : Bool) : List FLine → List Event × Option CodecError
  | [] => ([], none)
  | l :: rest =>
    if rest.isEmpty ∧ term = false then ([], none)
    else
      match l with
      | .blank => readAllEvents term rest
      | .bad => ([], some .formatError)
      | .json j =>
        match parseEvent j with
        | some e =>
          let r := readAllEvents term rest
          (e :: r.1, r.2)
        | none => ([], some .formatError)

/-- Model: `player.Options` (player.go): playback configuration. -/
structure Options where
  Speed : ℚ
  IdleTimeLimit : ℚ
  Loop : Bool
  MaxWait : ℚ

/-- One observable action of the replay loop: a suspension of the given
duration (`time.Sleep`) or a write of a payload to the display
(`os.Stdout.WriteString`). -/
inductive PlayStep where
  | sleep (d : ℚ)
  | write (s : String)
deriving DecidableEq

/-- The body of `Player.playOnce` (player.go:337-374) on the event
sequence the reader yields: for each event compute
`delay = event.Time - prevTime`, update `prevTime`, clamp at
`IdleTimeLimit` then at `MaxWait` (each only when positive and
exceeded), divide by `Speed`, sleep when the result is positive, then
write the payload when the event kind is `EventTypeOutput`. -/
def playOnce (o : Options) : ℚ → List Event → List PlayStep
  | _, [] => []
  | prevTime, e :: rest =>
    let delay := e.time - prevTime
    let delay := if o.IdleTimeLimit > 0 ∧ delay > o.IdleTimeLimit then o.IdleTimeLimit else delay
    let delay := if o.MaxWait > 0 ∧ delay > o.MaxWait then o.MaxWait else delay
    let delay := delay / o.Speed
    (if delay > 0 then [PlayStep.sleep delay] else [])
      ++ (if e.type = EventTypeOutput then [PlayStep.write e.data] else [])
      ++ playOnce o e.time rest

/-- Entry state: `Player.playOnce` starts with `var prevTime float64`, i.e. 0. -/
def playOnceFromStart (o : Options) (events : List Event) : List PlayStep :=
  playOnce o 0 events

/-- Model: `player.Cat` (player.go:377): read every event and immediately
write the payload of each output-kind event, with no timing. -/
def Cat : List Event → List String
  | [] => []
  | e :: rest => (if e.type = EventTypeOutput then [e.data] else []) ++ Cat rest

/-- The content written to the display by a sequence of play steps. -/
def displayed : List PlayStep → List String
  | [] => []
  | .sleep _ :: rest => displayed rest
  | .write s :: rest => s :: displayed rest

/-- The durations of the suspensions in a sequence of play steps. -/
def sleeps : List PlayStep → List ℚ
  | [] => []
  | .sleep d :: rest => d :: sleeps rest
  | .write _ :: rest => sleeps rest

/-- Modelled from the spec (§4.4, claim wording): the pacing algorithm
as the specification states it — `previous_event_time = 0`; per event,
`delay = event.time - previous_event_time`; update; clamp to at most
`idle_time_limit` when that limit is positive and exceeded; then clamp
to at most `max_wait` when positive and exceeded; divide by `speed`;
suspend for exactly that duration iff it is positive, before emitting;
only output-kind events reach the display. -/
def replaySpec (speed idle maxw : ℚ) : ℚ → List Event → List PlayStep
  | _, [] => []
  | prev, e :: rest =>
    let d0 := e.time - prev
    let d1 := if 0 < idle ∧ idle < d0 then idle else d0
    let d2 := if 0 < maxw ∧ maxw < d1 then maxw else d1
    let d3 := d2 / speed
    (if 0 < d3 then [PlayStep.sleep d3] else [])
      ++ (if e.type = "o" then [PlayStep.write e.data] else [])
      ++ replaySpec speed idle maxw e.time rest

/-- Modelled from the spec (claim C4 wording): a line is well-formed
exactly when it is a 3-element JSON array `[number, kind, string]`
whose kind tag is a one-character string. -/
def specWellFormedEventLine (j : Json) : Prop :=
  ∃ t k d, j = Json.arr [.num t, .str k, .str d] ∧ k.length = 1

/-- Model: `recorder.Options` (recorder.go): the fields that determine the
capture dimensions. -/
structure RecOptions where
  Cols : ℤ
  Rows : ℤ

/-- The dimension resolution of `Recorder.Record` (recorder.go:48-55):
use the explicit override when both columns and rows are nonzero,
otherwise the queried terminal size (`query = none` models a failing
`tty.GetSize`), otherwise the 80×24 fallback. -/
def resolveSize (o : RecOptions) (query : Option (ℤ × ℤ)) : ℤ × ℤ :=
  if o.Cols = 0 ∨ o.Rows = 0 then
    match query with
    | some s => s
    | none => (80, 24)
  else (o.Cols, o.Rows)

/-- Model: `asciicast.NewHeader` (types.go:322) as called with the resolved
size and the current Unix time. -/
def NewHeader (width height now : ℤ) : Header :=
  ⟨2, width, height, now, 0, 0, "", "", [], none⟩

/-- The header built by `Recorder.Record` (recorder.go:57-67):
`NewHeader(cols, rows)` with title, idle limit, command, and the
SHELL/TERM environment snapshot filled in. -/
def recordHeader (o : RecOptions) (query : Option (ℤ × ℤ)) (now : ℤ)
    (title : String) (idle : ℚ) (command shell term : String) : Header :=
  let s := resolveSize o query
  { NewHeader s.1 s.2 now with
    title := title, idleTimeLimit := idle, command := command,
    env := [("SHELL", shell), ("TERM", term)] }

/-- The `pty.Winsize` passed to `pty.StartWithSize` (recorder.go:92):
`Rows: uint16(rows), Cols: uint16(cols)` — Go's conversion to `uint16`
keeps the low 16 bits. -/
def ptyWinsize (o : RecOptions) (query : Option (ℤ × ℤ)) : ℤ × ℤ :=
  let s := resolveSize o query
  (s.2 % 65536, s.1 % 65536)

/-! Section: Numeric lemmas about microsecond truncation -/

theorem abs_truncQ_sub_lt_one (q : ℚ) : |(truncQ q : ℚ) - q| < 1 := by
  unfold truncQ
  rcases le_or_lt 0 q with hq | hq
  · rw [if_pos hq, abs_sub_lt_iff]
    constructor
    · have := Int.floor_le q
      linarith
    · have := Int.sub_one_lt_floor q
      linarith
  · rw [if_neg (not_le.mpr hq), abs_sub_lt_iff]
    constructor
    · have := Int.ceil_lt_add_one q
      linarith
    · have := Int.le_ceil q
      linarith

theorem abs_roundTimestamp_sub_lt (t : ℚ) :
    |roundTimestamp t - t| < 1 / 1000000 := by
  unfold roundTimestamp
  have h := abs_truncQ_sub_lt_one (t * 1000000)
  rw [show (truncQ (t * 1000000) : ℚ) / 1000000 - t
      = ((truncQ (t * 1000000) : ℚ) - t * 1000000) / 1000000 by ring]
  rw [abs_div, abs_of_pos (show (0 : ℚ) < 1000000 by norm_num)]
  rw [div_lt_div_iff₀ (by norm_num) (by norm_num)]
  linarith

theorem truncQ_mono {x y : ℚ} (h : x ≤ y) : truncQ x ≤ truncQ y := by
  unfold truncQ
  rcases le_or_lt 0 x with hx | hx
  · rw [if_pos hx, if_pos (le_trans hx h)]
    exact Int.floor_le_floor h
  · rw [if_neg (not_le.mpr hx)]
    rcases le_or_lt 0 y with hy | hy
    · rw [if_pos hy]
      have h1 : ⌈x⌉ ≤ ⌈(0 : ℚ)⌉ := Int.ceil_le_ceil (le_of_lt hx)
      have h2 : ⌊(0 : ℚ)⌋ ≤ ⌊y⌋ := Int.floor_le_floor hy
      simp only [Int.ceil_zero, Int.floor_zero] at h1 h2
      omega
    · rw [if_neg (not_le.mpr hy)]
      exact Int.ceil_le_ceil h

theorem roundTimestamp_mono {x y : ℚ} (h : x ≤ y) :
    roundTimestamp x ≤ roundTimestamp y := by
  unfold roundTimestamp
  have : (truncQ (x * 1000000) : ℚ) ≤ (truncQ (y * 1000000) : ℚ) := by
    exact_mod_cast truncQ_mono (by linarith)
  apply div_le_div_of_nonneg_right this ?_ |>.trans_eq rfl
  norm_num

/-- Timestamps that are already an exact number of microseconds (as
every timestamp this writer serializes is) are fixed by a further
rounding, and are a lower bound for the rounding of anything at least
as large. -/
theorem roundTimestamp_le_of_fix {T x : ℚ} (hfix : roundTimestamp T = T)
    (h : T ≤ x) : T ≤ roundTimestamp x := by
  calc T = roundTimestamp T := hfix.symm
    _ ≤ roundTimestamp x := roundTimestamp_mono h

/-! Section: Header marshal/unmarshal round-trip -/

theorem parseHeaderFields_append (l1 l2 : List (String × Json)) (h : Header) :
    parseHeaderFields (l1 ++ l2) h =
      match parseHeaderFields l1 h with
      | some h' => parseHeaderFields l2 h'
      | none => none := by
  induction l1 generalizing h with
  | nil => simp [parseHeaderFields]
  | cons kv rest ih =>
    simp only [List.cons_append, parseHeaderFields]
    cases parseHeaderField h kv with
    | some h' => exact ih h'
    | none => rfl

theorem parseHeaderFields_chain {l1 l2 : List (String × Json)} {h0 h1 : Header}
    (H : parseHeaderFields l1 h0 = some h1) :
    parseHeaderFields (l1 ++ l2) h0 = parseHeaderFields l2 h1 := by
  rw [parseHeaderFields_append, H]

theorem parseEnv_roundtrip (env : List (String × String)) :
    parseEnv (env.map fun p => (p.1, Json.str p.2)) = some env := by
  induction env with
  | nil => rfl
  | cons p rest ih => simp [parseEnv, ih]

theorem parseThemeFields_roundtrip (th : Theme) :
    parseThemeFields
      ((if th.fg = "" then [] else [("fg", Json.str th.fg)])
        ++ ((if th.bg = "" then [] else [("bg", Json.str th.bg)])
        ++ (if th.palette = "" then [] else [("palette", Json.str th.palette)])))
      ⟨"", "", ""⟩ = some th := by
  obtain ⟨f, b, p⟩ := th
  by_cases hf : f = "" <;> by_cases hb : b = "" <;> by_cases hp : p = "" <;>
    simp_all [parseThemeFields, parseThemeField, setStr]

theorem pHF_version_width_height (h0 : Header) (v w ht : ℤ) :
    parseHeaderFields
      [("version", Json.num (v : ℚ)), ("width", Json.num (w : ℚ)),
        ("height", Json.num (ht : ℚ))] h0
      = some { h0 with version := v, width := w, height := ht } := by
  simp [parseHeaderFields, parseHeaderField, setInt, Rat.den_intCast,
    Rat.num_intCast]

theorem pHF_timestamp (h0 : Header) (ts : ℤ) (hd : h0.timestamp = 0) :
    parseHeaderFields
      (if ts = 0 then [] else [("timestamp", Json.num (ts : ℚ))]) h0
      = some { h0 with timestamp := ts } := by
  by_cases hts : ts = 0
  · rw [if_pos hts, hts, ← hd]
    rfl
  · simp [if_neg hts, parseHeaderFields, parseHeaderField, setInt,
      Rat.den_intCast, Rat.num_intCast]

theorem pHF_duration (h0 : Header) (du : ℚ) (hd : h0.duration = 0) :
    parseHeaderFields
      (if du = 0 then [] else [("duration", Json.num du)]) h0
      = some { h0 with duration := du } := by
  by_cases hdu : du = 0
  · rw [if_pos hdu, hdu, ← hd]
    rfl
  · simp [if_neg hdu, parseHeaderFields, parseHeaderField, setRat]

theorem pHF_idle (h0 : Header) (idl : ℚ) (hd : h0.idleTimeLimit = 0) :
    parseHeaderFields
      (if idl = 0 then [] else [("idle_time_limit", Json.num idl)]) h0
      = some { h0 with idleTimeLimit := idl } := by
  by_cases hi : idl = 0
  · rw [if_pos hi, hi, ← hd]
    rfl
  · simp [if_neg hi, parseHeaderFields, parseHeaderField, setRat]

theorem pHF_command (h0 : Header) (cmd : String) (hd : h0.command = "") :
    parseHeaderFields
      (if cmd = "" then [] else [("command", Json.str cmd)]) h0
      = some { h0 with command := cmd } := by
  by_cases hc : cmd = ""
  · rw [if_pos hc, hc, ← hd]
    rfl
  · simp [if_neg hc, parseHeaderFields, parseHeaderField, setStr]

theorem pHF_title (h0 : Header) (ttl : String) (hd : h0.title = "") :
    parseHeaderFields
      (if ttl = "" then [] else [("title", Json.str ttl)]) h0
      = some { h0 with title := ttl } := by
  by_cases hc : ttl = ""
  · rw [if_pos hc, hc, ← hd]
    rfl
  · simp [if_neg hc, parseHeaderFields, parseHeaderField, setStr]

theorem pHF_env (h0 : Header) (env : List (String × String)) (hd : h0.env = []) :
    parseHeaderFields
      (if env = [] then []
        else [("env", Json.obj (env.map fun p => (p.1, Json.str p.2)))]) h0
      = some { h0 with env := env } := by
  by_cases he : env = []
  · rw [if_pos he, he, ← hd]
    rfl
  · simp [if_neg he, parseHeaderFields, parseHeaderField, parseEnv_roundtrip]

theorem pHF_theme (h0 : Header) (th : Option Theme) (hd : h0.theme = none) :
    parseHeaderFields
      (match th with | none => [] | some t => [("theme", themeJson t)]) h0
      = some { h0 with theme := th } := by
  cases th with
  | none =>
    show parseHeaderFields [] h0 = _
    rw [parseHeaderFields, ← hd]
  | some t =>
    simp [parseHeaderFields, parseHeaderField, themeJson,
      parseThemeFields_roundtrip]

/-- Round-trip: `json.Unmarshal` inverts `json.Marshal` on every header value:
what `NewWriter` writes, `Open` reads back field-for-field. -/
theorem parseHeader_headerJson (h : Header) :
    parseHeader (headerJson h) = some h := by
  obtain ⟨v, w, ht, ts, du, idl, cmd, ttl, env, th⟩ := h
  show parseHeaderFields _ zeroHeader = _
  rw [parseHeaderFields_chain (pHF_version_width_height zeroHeader v w ht),
    parseHeaderFields_chain (pHF_timestamp _ ts rfl),
    parseHeaderFields_chain (pHF_duration _ du rfl),
    parseHeaderFields_chain (pHF_idle _ idl rfl),
    parseHeaderFields_chain (pHF_command _ cmd rfl),
    parseHeaderFields_chain (pHF_title _ ttl rfl),
    parseHeaderFields_chain (pHF_env _ env rfl),
    pHF_theme _ th rfl]

/-! Section: Writing and reading event lines -/

/-- The event `ReadEvent` decodes from a line `WriteEvent` wrote. -/
def adjustEvent (off : ℚ) (e : Event) : Event :=
  ⟨roundTimestamp (e.time + off), e.type, e.data⟩

theorem parseEvent_eventJson (off : ℚ) (e : Event) :
    parseEvent (eventJson off e) = some (adjustEvent off e) := rfl

theorem parseEvent_eventLine (e : Event) :
    parseEvent (Json.arr [.num e.time, .str e.type, .str e.data]) = some e := rfl

theorem WriteEvent_terminated (w : Writer) (e : Event)
    (hterm : w.file.terminated = true) :
    WriteEvent w e =
      ⟨⟨w.file.lines ++ [.json (eventJson w.timeOffset e)], true⟩, w.timeOffset⟩ := by
  unfold WriteEvent appendLine
  rw [if_pos (Or.inl hterm)]

/-- Writing a batch of events to a writer over a newline-terminated
file appends one marshalled line per event, in submission order. -/
theorem foldl_WriteEvent (es : List Event) (ls : List FLine) (off : ℚ) :
    es.foldl WriteEvent ⟨⟨ls, true⟩, off⟩ =
      ⟨⟨ls ++ es.map fun e => .json (eventJson off e), true⟩, off⟩ := by
  induction es generalizing ls with
  | nil => simp
  | cons e rest ih =>
    rw [List.foldl_cons, WriteEvent_terminated _ _ rfl]
    simp only at *
    rw [ih]
    simp

theorem readAllEvents_nil (term : Bool) : readAllEvents term [] = ([], none) := rfl

/-- Reading a terminated block of writer-produced lines followed by a
tail: the block's events come out first, in order. -/
theorem readAllEvents_append_jsonEvents (es : List Event) (off : ℚ)
    (tail : List FLine) :
    readAllEvents true ((es.map fun e => FLine.json (eventJson off e)) ++ tail) =
      ((es.map (adjustEvent off)) ++ (readAllEvents true tail).1,
        (readAllEvents true tail).2) := by
  induction es with
  | nil => simp
  | cons e rest ih =>
    simp only [List.map_cons, List.cons_append, readAllEvents, List.append_eq]
    rw [if_neg (by simp)]
    rw [show parseEvent (eventJson off e) = some (adjustEvent off e) from rfl]
    rw [ih]

/-- Reading a terminated block of raw stored event lines followed by a
tail: the stored events come out unchanged, in order. -/
theorem readAllEvents_append_eventLines (es : List Event) (tail : List FLine) :
    readAllEvents true (es.map eventLine ++ tail) =
      (es ++ (readAllEvents true tail).1, (readAllEvents true tail).2) := by
  induction es with
  | nil => simp
  | cons e rest ih =>
    simp only [List.map_cons, List.cons_append, eventLine, readAllEvents,
      List.append_eq]
    rw [if_neg (by simp)]
    rw [show parseEvent (Json.arr [.num e.time, .str e.type, .str e.data])
      = some e from rfl]
    rw [ih]

/-- The continuation scan over newline-terminated stored event lines
finds the timestamp of the last event (or keeps the accumulator when
there are none). -/
theorem lastTimestampScan_eventLines (es : List Event) (acc : ℚ) :
    lastTimestampScan (es.map eventLine) true acc =
      ((es.getLast?).map Event.time).getD acc := by
  induction es generalizing acc with
  | nil => rfl
  | cons e rest ih =>
    simp only [List.map_cons, lastTimestampScan, eventLine]
    rw [if_neg (by simp)]
    rw [ih]
    cases rest with
    | nil => rfl
    | cons e2 r2 =>
      rw [List.getLast?_cons_cons]
      obtain ⟨x, hx⟩ := Option.isSome_iff_exists.mp
        (List.getLast?_isSome.mpr (List.cons_ne_nil e2 r2))
      rw [hx]
      rfl

/-- One successful `ReadEvent` step inside the reading loop. -/
theorem readAllEvents_cons_parsed (term : Bool) (j : Json) (e : Event)
    (rest : List FLine) (hrest : ¬(rest.isEmpty ∧ term = false))
    (hp : parseEvent j = some e) :
    readAllEvents term (.json j :: rest) =
      (e :: (readAllEvents term rest).1, (readAllEvents term rest).2) := by
  simp only [readAllEvents]
  rw [if_neg hrest, hp]

/-- Reading a file whose final event line is not newline-terminated
drops that final event: only the preceding events are returned. -/
theorem readAllEvents_unterminated (es : List Event) :
    readAllEvents false (es.map eventLine) = (es.dropLast, none) := by
  induction es with
  | nil => rfl
  | cons e rest ih =>
    cases rest with
    | nil => rfl
    | cons e2 r2 =>
      simp only [List.map_cons, eventLine] at ih ⊢
      rw [readAllEvents_cons_parsed false
        (Json.arr [.num e.time, .str e.type, .str e.data]) e _ (by simp) rfl]
      rw [ih]
      rfl

/-! Section: Player lemmas -/

theorem displayed_append (a b : List PlayStep) :
    displayed (a ++ b) = displayed a ++ displayed b := by
  induction a with
  | nil => rfl
  | cons s rest ih => cases s <;> simp [displayed, ih]

theorem displayed_sleep_if (c : Prop) [Decidable c] (d : ℚ) :
    displayed (if c then [PlayStep.sleep d] else []) = [] := by
  split <;> rfl

theorem displayed_write_if (c : Prop) [Decidable c] (s : String) :
    displayed (if c then [PlayStep.write s] else []) = if c then [s] else [] := by
  split <;> rfl

theorem displayed_playOnce (o : Options) (prev : ℚ) (es : List Event) :
    displayed (playOnce o prev es) =
      (es.filter fun e => e.type = EventTypeOutput).map Event.data := by
  induction es generalizing prev with
  | nil => rfl
  | cons e rest ih =>
    simp only [playOnce, displayed_append, displayed_sleep_if, displayed_write_if,
      List.nil_append]
    rw [ih]
    by_cases ht : e.type = EventTypeOutput <;> simp [List.filter_cons, ht]

theorem Cat_filter (es : List Event) :
    Cat es = (es.filter fun e => e.type = EventTypeOutput).map Event.data := by
  induction es with
  | nil => rfl
  | cons e rest ih =>
    simp only [Cat]
    rw [ih]
    by_cases ht : e.type = EventTypeOutput <;> simp [List.filter_cons, ht]

/-! Section: Sample values used by the witnesses -/

/-- A concrete header like the one `Recorder.Record` builds. -/
def sampleHeader : Header := ⟨2, 80, 24, 0, 0, 0, "", "", [], none⟩

/-- A concrete output event. -/
def sampleEvent : Event := ⟨1/2, "o", "Hello "⟩

/-- Running `Open` on a file whose first line is a marshalled header parses
that header back and hands the remaining lines to the reader. -/
theorem Open_cons_header (h : Header) (rest : List FLine) (term : Bool)
    (hg : ¬(rest.isEmpty ∧ term = false)) :
    Open ⟨.json (headerJson h) :: rest, term⟩ = .ok ⟨h, rest, term⟩ := by
  simp only [Open]
  rw [if_neg hg, parseHeader_headerJson]

/-! Section: The claims -/

/-- C1: Round-trip — for every header H and every sequence of N ≥ 0
events, writing H with `NewWriter` (append=false) followed by
`WriteEvent` for each event, then reading back with `Open` and repeated
`ReadEvent`, yields header fields identical to H and the same event
kinds and payloads in the same order, each timestamp equal to the
original up to rounding at microsecond precision. -/
theorem C1_roundTrip (h : Header) (es : List Event) :
    NewWriter none h false = .ok ⟨⟨[.json (headerJson h)], true⟩, 0⟩ ∧
    Open (es.foldl WriteEvent ⟨⟨[.json (headerJson h)], true⟩, 0⟩).file =
      .ok ⟨h, es.map fun e => FLine.json (eventJson 0 e), true⟩ ∧
    readAllEvents true (es.map fun e => FLine.json (eventJson 0 e)) =
      (es.map fun e => ⟨roundTimestamp e.time, e.type, e.data⟩, none) ∧
    ∀ e ∈ es, |roundTimestamp e.time - e.time| < 1 / 1000000 := by
  refine ⟨rfl, ?_, ?_, fun e _ => abs_roundTimestamp_sub_lt e.time⟩
  · rw [foldl_WriteEvent, List.singleton_append]
    exact Open_cons_header h _ true (by simp)
  · have hall := readAllEvents_append_jsonEvents es 0 []
    simp only [List.append_nil, readAllEvents_nil] at hall
    rw [hall]
    have hm : es.map (adjustEvent 0)
        = es.map fun e => (⟨roundTimestamp e.time, e.type, e.data⟩ : Event) :=
      List.map_congr_left fun e _ => by simp [adjustEvent]
    rw [hm]

theorem C1_roundTrip_witness :
    NewWriter none sampleHeader false
        = .ok ⟨⟨[.json (headerJson sampleHeader)], true⟩, 0⟩ ∧
    Open ([sampleEvent].foldl WriteEvent
        ⟨⟨[.json (headerJson sampleHeader)], true⟩, 0⟩).file =
      .ok ⟨sampleHeader, [sampleEvent].map fun e => FLine.json (eventJson 0 e), true⟩ ∧
    readAllEvents true ([sampleEvent].map fun e => FLine.json (eventJson 0 e)) =
      ([sampleEvent].map fun e => ⟨roundTimestamp e.time, e.type, e.data⟩, none) ∧
    ∀ e ∈ [sampleEvent], |roundTimestamp e.time - e.time| < 1 / 1000000 :=
  C1_roundTrip sampleHeader [sampleEvent]

/-- C3: Replay pacing — the replay loop starts from
`previous_event_time = 0` and, per event, computes the delta to the
previous event time, clamps it at `idle_time_limit` then at `max_wait`
(each only when the limit is positive and exceeded), divides by
`speed`, suspends exactly when the result is positive, and does so
before emitting the event: `playOnce` coincides with the specification
algorithm `replaySpec`. -/
theorem C3_replay_pacing (o : Options) (prev : ℚ) (es : List Event) :
    playOnceFromStart o es = replaySpec o.Speed o.IdleTimeLimit o.MaxWait 0 es ∧
    playOnce o prev es = replaySpec o.Speed o.IdleTimeLimit o.MaxWait prev es := by
  have key : ∀ (p : ℚ) (l : List Event),
      playOnce o p l = replaySpec o.Speed o.IdleTimeLimit o.MaxWait p l := by
    intro p l
    induction l generalizing p with
    | nil => rfl
    | cons e rest ih =>
      simp only [playOnce, replaySpec, gt_iff_lt, EventTypeOutput]
      rw [ih]
  exact ⟨key 0 es, key prev es⟩

/-- C5: Kind filtering — both timed replay (`playOnce`) and the raw
no-timing variant (`Cat`) write to the display exactly the payloads of
output-kind events, in file order; input, marker and resize payloads
never reach the display (those events only contribute to the pacing
delays, never to the displayed content). -/
theorem C5_kind_filtering (o : Options) (prev : ℚ) (es : List Event) :
    displayed (playOnce o prev es)
        = (es.filter fun e => e.type = EventTypeOutput).map Event.data ∧
    displayed (playOnceFromStart o es)
        = (es.filter fun e => e.type = EventTypeOutput).map Event.data ∧
    Cat es = (es.filter fun e => e.type = EventTypeOutput).map Event.data :=
  ⟨displayed_playOnce o prev es, displayed_playOnce o 0 es, Cat_filter es⟩

/-- C6: Timestamp serialization — `WriteEvent` serializes
`roundTimestamp (time + offset)` (the offset is added first, the
microsecond rounding applied second), the serialized value is within
one microsecond of `time + offset`, and the reader decodes the
serialized value exactly. -/
theorem C6_timestamp_serialization (w : Writer) (e : Event)
    (hterm : w.file.terminated = true) :
    (WriteEvent w e).file.lines
        = w.file.lines ++ [.json (eventJson w.timeOffset e)] ∧
    eventJson w.timeOffset e
        = .arr [.num (roundTimestamp (e.time + w.timeOffset)), .str e.type,
            .str e.data] ∧
    |roundTimestamp (e.time + w.timeOffset) - (e.time + w.timeOffset)|
        < 1 / 1000000 ∧
    parseEvent (eventJson w.timeOffset e)
        = some ⟨roundTimestamp (e.time + w.timeOffset), e.type, e.data⟩ := by
  refine ⟨?_, rfl, abs_roundTimestamp_sub_lt _, rfl⟩
  rw [WriteEvent_terminated w e hterm]

theorem C6_timestamp_serialization_witness :
    (WriteEvent ⟨⟨[], true⟩, 5⟩ ⟨1/3, "o", "x"⟩).file.lines
        = [] ++ [.json (eventJson 5 ⟨1/3, "o", "x"⟩)] ∧
    eventJson 5 ⟨1/3, "o", "x"⟩
        = .arr [.num (roundTimestamp ((1/3 : ℚ) + 5)), .str "o", .str "x"] ∧
    |roundTimestamp ((1/3 : ℚ) + 5) - ((1/3 : ℚ) + 5)| < 1 / 1000000 ∧
    parseEvent (eventJson 5 ⟨1/3, "o", "x"⟩)
        = some ⟨roundTimestamp ((1/3 : ℚ) + 5), "o", "x"⟩ :=
  C6_timestamp_serialization ⟨⟨[], true⟩, 5⟩ ⟨1/3, "o", "x"⟩ rfl

/-- C10: Unterminated final line is dropped — when the final line of
the file holds a well-formed event but no trailing newline, `ReadEvent`
reports end of stream at that line and the event is never returned;
with the newline present the same lines yield every event. -/
theorem C10_unterminated_final_line (es : List Event) (e : Event) :
    ReadEvent false [eventLine e] = .eos ∧
    readAllEvents false (es.map eventLine) = (es.dropLast, none) ∧
    readAllEvents true (es.map eventLine) = (es, none) := by
  refine ⟨rfl, readAllEvents_unterminated es, ?_⟩
  have hall := readAllEvents_append_eventLines es []
  simpa [readAllEvents_nil] using hall

/-- C4, counterexample: the claim says a line is malformed (and must
fail with `FormatError`) iff it is not a 3-element array
`[number, one-character kind, string]`.  The line
`[0, "xyz", "d"]` has a three-character kind tag, so the claim calls it
malformed — yet `ReadEvent` accepts it and returns the event. -/
theorem C4_ReadEvent_counterexample :
    ¬ specWellFormedEventLine (Json.arr [.num 0, .str "xyz", .str "d"]) ∧
    ReadEvent true [.json (.arr [.num 0, .str "xyz", .str "d"])]
      = .ok ⟨0, "xyz", "d"⟩ := by
  constructor
  · rintro ⟨t, k, d, heq, hlen⟩
    have hk : k = "xyz" := by
      injection heq with h1
      injection h1 with h2 h3
      injection h3 with h4 h5
      injection h4 with h6
      exact h6.symm
    rw [hk] at hlen
    exact absurd hlen (by decide)
  · rfl

/-- C4, amended: `ReadEvent` returns the next event in file order,
skipping blank lines; it reports end of stream exactly when no complete
lines remain; it fails with `FormatError` on a line that is not valid
JSON or not an array of **at least** 3 elements whose first three are
[number, string, string] — the kind tag may be any string (not only
one-character tags) and extra array elements are ignored. -/
theorem C4_ReadEvent_contract (term : Bool) (rest : List FLine) (j : Json)
    (hrest : ¬(rest.isEmpty ∧ term = false)) :
    ReadEvent term [] = .eos ∧
    ReadEvent term (.blank :: rest) = ReadEvent term rest ∧
    ReadEvent term (.bad :: rest) = .formatError ∧
    (ReadEvent term (.json j :: rest)
        = match parseEvent j with
          | some e => .ok e
          | none => .formatError) ∧
    (∀ t k d r, parseEvent (.arr (.num t :: .str k :: .str d :: r))
        = some ⟨t, k, d⟩) ∧
    (∀ e, parseEvent j = some e →
        ∃ t k d r, j = .arr (.num t :: .str k :: .str d :: r) ∧ e = ⟨t, k, d⟩) := by
  refine ⟨rfl, ?_, ?_, ?_, fun t k d r => rfl, ?_⟩
  · simp only [ReadEvent]
    rw [if_neg hrest]
  · simp only [ReadEvent]
    rw [if_neg hrest]
  · simp only [ReadEvent]
    rw [if_neg hrest]
  · intro e he
    unfold parseEvent at he
    split at he
    · rename_i t k d r
      injection he with h
      exact ⟨t, k, d, r, rfl, h.symm⟩
    · exact absurd he (by simp)

theorem C4_ReadEvent_contract_witness :
    ReadEvent true [] = .eos ∧
    ReadEvent true (.blank :: [.json (.arr [.num 1, .str "o", .str "hi"])])
        = ReadEvent true [.json (.arr [.num 1, .str "o", .str "hi"])] ∧
    ReadEvent true (.bad :: [.json (.arr [.num 1, .str "o", .str "hi"])])
        = .formatError ∧
    (ReadEvent true (.json (.arr [.num 1, .str "o", .str "hi"])
          :: [.json (.arr [.num 1, .str "o", .str "hi"])])
        = match parseEvent (.arr [.num 1, .str "o", .str "hi"]) with
          | some e => .ok e
          | none => .formatError) ∧
    (∀ t k d r, parseEvent (.arr (.num t :: .str k :: .str d :: r))
        = some ⟨t, k, d⟩) ∧
    (∀ e, parseEvent (.arr [.num 1, .str "o", .str "hi"]) = some e →
        ∃ t k d r, (Json.arr [.num 1, .str "o", .str "hi"])
          = .arr (.num t :: .str k :: .str d :: r) ∧ e = ⟨t, k, d⟩) :=
  C4_ReadEvent_contract true [.json (.arr [.num 1, .str "o", .str "hi"])]
    (.arr [.num 1, .str "o", .str "hi"]) (by simp)

/-- C7, counterexample: the claim says `NewWriter` in append mode fails
with `FormatError` when the existing file's header cannot be parsed
during the continuation scan.  But `getLastTimestamp` only skips the
first line without ever parsing it: on a file whose header line is
unparsable (`FLine.bad`) followed by the event `[1, "o", "x"]`,
`NewWriter` succeeds and takes continuation offset 1. -/
theorem C7_NewWriter_counterexample :
    NewWriter (some ⟨[.bad, eventLine ⟨1, "o", "x"⟩], true⟩) sampleHeader true
      = .ok ⟨⟨[.bad, eventLine ⟨1, "o", "x"⟩], true⟩, 1⟩ := by
  rfl

/-- C7, amended: in append mode with a non-empty existing file,
`NewWriter` skips the first newline-terminated line **without parsing
it** and scans the remaining lines leniently, so it succeeds for any
header line whatsoever; it fails (with the underlying read error, not
`FormatError`) exactly when the single existing line is not
newline-terminated.  With the append flag unset, or no non-empty file,
it creates/truncates and writes the marshalled header as the first
line. -/
theorem C7_NewWriter_contract (l l2 : FLine) (rest : List FLine) (term : Bool)
    (h : Header) (f : VFile) (ap : Bool)
    (hsc : ¬(rest.isEmpty ∧ term = false)) :
    NewWriter (some ⟨l :: rest, term⟩) h true
        = .ok ⟨⟨l :: rest, term⟩, lastTimestampScan rest term 0⟩ ∧
    NewWriter (some ⟨[l2], false⟩) h true = .error .ioError ∧
    NewWriter (some ⟨[], term⟩) h true
        = .ok ⟨⟨[.json (headerJson h)], true⟩, 0⟩ ∧
    NewWriter (some f) h false = .ok ⟨⟨[.json (headerJson h)], true⟩, 0⟩ ∧
    NewWriter none h ap = .ok ⟨⟨[.json (headerJson h)], true⟩, 0⟩ := by
  refine ⟨?_, rfl, rfl, rfl, ?_⟩
  · simp only [NewWriter, getLastTimestamp]
    rw [if_neg (by simp), if_neg hsc]
  · cases ap <;> rfl

theorem C7_NewWriter_contract_witness :
    NewWriter (some ⟨FLine.bad :: [eventLine sampleEvent], true⟩) sampleHeader true
        = .ok ⟨⟨FLine.bad :: [eventLine sampleEvent], true⟩,
            lastTimestampScan [eventLine sampleEvent] true 0⟩ ∧
    NewWriter (some ⟨[FLine.bad], false⟩) sampleHeader true = .error .ioError ∧
    NewWriter (some ⟨[], true⟩) sampleHeader true
        = .ok ⟨⟨[.json (headerJson sampleHeader)], true⟩, 0⟩ ∧
    NewWriter (some ⟨[], true⟩) sampleHeader false
        = .ok ⟨⟨[.json (headerJson sampleHeader)], true⟩, 0⟩ ∧
    NewWriter none sampleHeader false
        = .ok ⟨⟨[.json (headerJson sampleHeader)], true⟩, 0⟩ :=
  C7_NewWriter_contract FLine.bad FLine.bad [eventLine sampleEvent] true
    sampleHeader ⟨[], true⟩ false (by simp)

/-- C8: Capture dimension resolution — the recorder uses the explicit
override when both columns and rows are nonzero, otherwise the queried
terminal size, otherwise the 80×24 fallback; the resolved width and
height are written into the header and (reduced to 16 bits, which is
the identity on any realistic terminal size) passed to the
pseudo-terminal. -/
theorem C8_capture_dimensions (o : RecOptions) (query : Option (ℤ × ℤ))
    (now : ℤ) (title : String) (idle : ℚ) (command shell termName : String)
    (hc0 : 0 ≤ (resolveSize o query).1) (hc1 : (resolveSize o query).1 < 65536)
    (hr0 : 0 ≤ (resolveSize o query).2) (hr1 : (resolveSize o query).2 < 65536) :
    (¬(o.Cols = 0 ∨ o.Rows = 0) → resolveSize o query = (o.Cols, o.Rows)) ∧
    ((o.Cols = 0 ∨ o.Rows = 0) → resolveSize o query
        = query.getD (80, 24)) ∧
    (recordHeader o query now title idle command shell termName).width
        = (resolveSize o query).1 ∧
    (recordHeader o query now title idle command shell termName).height
        = (resolveSize o query).2 ∧
    ptyWinsize o query = ((resolveSize o query).2, (resolveSize o query).1) := by
  refine ⟨?_, ?_, rfl, rfl, ?_⟩
  · intro hno
    unfold resolveSize
    rw [if_neg hno]
  · intro hyes
    unfold resolveSize
    rw [if_pos hyes]
    cases query <;> rfl
  · show ((resolveSize o query).2 % 65536, (resolveSize o query).1 % 65536) = _
    rw [Int.emod_eq_of_lt hr0 hr1, Int.emod_eq_of_lt hc0 hc1]

theorem C8_capture_dimensions_witness :
    (¬((⟨100, 50⟩ : RecOptions).Cols = 0 ∨ (⟨100, 50⟩ : RecOptions).Rows = 0) →
        resolveSize ⟨100, 50⟩ (some (101, 51)) = ((⟨100, 50⟩ : RecOptions).Cols,
          (⟨100, 50⟩ : RecOptions).Rows)) ∧
    (((⟨100, 50⟩ : RecOptions).Cols = 0 ∨ (⟨100, 50⟩ : RecOptions).Rows = 0) →
        resolveSize ⟨100, 50⟩ (some (101, 51))
          = (some ((101 : ℤ), (51 : ℤ))).getD (80, 24)) ∧
    (recordHeader ⟨100, 50⟩ (some (101, 51)) 0 "" 0 "" "" "").width
        = (resolveSize ⟨100, 50⟩ (some (101, 51))).1 ∧
    (recordHeader ⟨100, 50⟩ (some (101, 51)) 0 "" 0 "" "" "").height
        = (resolveSize ⟨100, 50⟩ (some (101, 51))).2 ∧
    ptyWinsize ⟨100, 50⟩ (some (101, 51))
        = ((resolveSize ⟨100, 50⟩ (some (101, 51))).2,
            (resolveSize ⟨100, 50⟩ (some (101, 51))).1) :=
  C8_capture_dimensions ⟨100, 50⟩ (some (101, 51)) 0 "" 0 "" "" ""
    (by decide) (by decide) (by decide) (by decide)

/-- C9: Concurrent append safety — the writer's mutex serializes
concurrent `WriteEvent` calls, so every admissible execution is some
sequential order (`order`, any permutation of the submitted events
`es`); in every such order the file gains exactly one complete
marshalled line per submitted event — the union of all submissions,
each line independently parsable. -/
theorem C9_concurrent_append (w : Writer) (es order : List Event)
    (hterm : w.file.terminated = true) (hperm : order.Perm es) :
    (order.foldl WriteEvent w).file.lines
        = w.file.lines ++ order.map (fun e => FLine.json (eventJson w.timeOffset e)) ∧
    (order.map fun e => FLine.json (eventJson w.timeOffset e)).Perm
        (es.map fun e => FLine.json (eventJson w.timeOffset e)) ∧
    (∀ e ∈ es, FLine.json (eventJson w.timeOffset e)
        ∈ (order.foldl WriteEvent w).file.lines) ∧
    ∀ e ∈ es, parseEvent (eventJson w.timeOffset e)
        = some (adjustEvent w.timeOffset e) := by
  obtain ⟨⟨ls, tm⟩, off⟩ := w
  change tm = true at hterm
  subst hterm
  refine ⟨?_, hperm.map _, ?_, fun e _ => rfl⟩
  · rw [foldl_WriteEvent]
  · intro e he
    rw [foldl_WriteEvent]
    refine List.mem_append.mpr (Or.inr ?_)
    exact List.mem_map.mpr ⟨e, hperm.mem_iff.mpr he, rfl⟩

theorem C9_concurrent_append_witness :
    (([⟨2, "i", "b"⟩, ⟨1, "o", "a"⟩] : List Event).foldl WriteEvent
          ⟨⟨[], true⟩, 0⟩).file.lines
        = [] ++ ([⟨2, "i", "b"⟩, ⟨1, "o", "a"⟩] : List Event).map
            (fun e => FLine.json (eventJson 0 e)) ∧
    (([⟨2, "i", "b"⟩, ⟨1, "o", "a"⟩] : List Event).map
          fun e => FLine.json (eventJson 0 e)).Perm
        (([⟨1, "o", "a"⟩, ⟨2, "i", "b"⟩] : List Event).map
          fun e => FLine.json (eventJson 0 e)) ∧
    (∀ e ∈ ([⟨1, "o", "a"⟩, ⟨2, "i", "b"⟩] : List Event),
        FLine.json (eventJson 0 e)
          ∈ (([⟨2, "i", "b"⟩, ⟨1, "o", "a"⟩] : List Event).foldl WriteEvent
              ⟨⟨[], true⟩, 0⟩).file.lines) ∧
    ∀ e ∈ ([⟨1, "o", "a"⟩, ⟨2, "i", "b"⟩] : List Event),
        parseEvent (eventJson 0 e) = some (adjustEvent 0 e) :=
  C9_concurrent_append ⟨⟨[], true⟩, 0⟩ [⟨1, "o", "a"⟩, ⟨2, "i", "b"⟩]
    [⟨2, "i", "b"⟩, ⟨1, "o", "a"⟩] rfl (by decide)

/-- A well-formed recording on disk: one marshalled header line
followed by one stored event line per event, final newline present. -/
def recordingFile (h : Header) (as : List Event) : VFile :=
  ⟨.json (headerJson h) :: as.map eventLine, true⟩

/-- C2: Append continuity — given an existing non-empty recording whose
events have non-decreasing, microsecond-exact timestamps ending at
T_max = time of the last event (exactly what a previous writer session
produces), `NewWriter` with the append flag establishes continuation
offset T_max; writing a second session's events (non-negative,
non-decreasing relative times) and reading the whole file back yields
one sequence whose timestamps are non-decreasing, in which each
appended event's timestamp is its relative time offset by exactly T_max
up to microsecond rounding. -/
theorem C2_append_continuity (h h2 : Header) (as bs : List Event)
    (hne : as ≠ [])
    (hchain : List.Chain' (· ≤ ·) (as.map Event.time))
    (hfix : roundTimestamp (as.getLast hne).time = (as.getLast hne).time)
    (hbs : ∀ b ∈ bs, 0 ≤ b.time)
    (hbschain : List.Chain' (· ≤ ·) (bs.map Event.time)) :
    NewWriter (some (recordingFile h as)) h2 true
        = .ok ⟨recordingFile h as, (as.getLast hne).time⟩ ∧
    Open (bs.foldl WriteEvent ⟨recordingFile h as, (as.getLast hne).time⟩).file
        = .ok ⟨h, as.map eventLine
            ++ bs.map fun b => FLine.json (eventJson (as.getLast hne).time b),
            true⟩ ∧
    readAllEvents true (as.map eventLine
          ++ bs.map fun b => FLine.json (eventJson (as.getLast hne).time b))
        = (as ++ bs.map (adjustEvent (as.getLast hne).time), none) ∧
    List.Chain' (· ≤ ·)
        ((as ++ bs.map (adjustEvent (as.getLast hne).time)).map Event.time) ∧
    ∀ b ∈ bs, (adjustEvent (as.getLast hne).time b).time
          = roundTimestamp (b.time + (as.getLast hne).time) ∧
        |(b.time + (as.getLast hne).time)
            - (adjustEvent (as.getLast hne).time b).time| < 1 / 1000000 := by
  refine ⟨?_, ?_, ?_, ?_, fun b _ => ⟨rfl, ?_⟩⟩
  · simp only [NewWriter, recordingFile, getLastTimestamp]
    rw [if_neg (by simp), if_neg (by simp)]
    rw [lastTimestampScan_eventLines, List.getLast?_eq_getLast as hne]
    rfl
  · simp only [recordingFile]
    rw [foldl_WriteEvent, List.cons_append]
    exact Open_cons_header h _ true (by simp)
  · rw [readAllEvents_append_eventLines]
    have hj := readAllEvents_append_jsonEvents bs ((as.getLast hne).time) []
    simp only [List.append_nil, readAllEvents_nil] at hj
    rw [hj]
  · rw [List.map_append, List.chain'_append]
    refine ⟨hchain, ?_, ?_⟩
    · rw [List.map_map, List.chain'_map]
      have hb : List.Chain' (fun a b : Event => a.time ≤ b.time) bs :=
        (List.chain'_map (fun e : Event => e.time)).mp hbschain
      refine hb.imp ?_
      intro a b hab
      show roundTimestamp (a.time + (as.getLast hne).time)
          ≤ roundTimestamp (b.time + (as.getLast hne).time)
      exact roundTimestamp_mono (by linarith)
    · intro x hx y hy
      rw [List.getLast?_map, List.getLast?_eq_getLast as hne, Option.mem_def] at hx
      have hx2 : some ((as.getLast hne).time) = some x := hx
      injection hx2 with hx3
      rw [List.map_map, List.head?_map] at hy
      cases hhd : bs.head? with
      | none =>
        rw [hhd] at hy
        exact absurd hy (by simp)
      | some b0 =>
        rw [hhd, Option.mem_def] at hy
        have hy2 : some (roundTimestamp (b0.time + (as.getLast hne).time))
            = some y := hy
        injection hy2 with hy3
        have hb0 : 0 ≤ b0.time := hbs b0 (List.mem_of_mem_head? hhd)
        rw [← hx3, ← hy3]
        exact roundTimestamp_le_of_fix hfix (by linarith)
  · have := abs_roundTimestamp_sub_lt (b.time + (as.getLast hne).time)
    rw [abs_sub_comm] at this
    exact this

theorem C2_append_continuity_witness :
    NewWriter (some (recordingFile sampleHeader [⟨1, "o", "a"⟩])) sampleHeader true
        = .ok ⟨recordingFile sampleHeader [⟨1, "o", "a"⟩],
            (([⟨1, "o", "a"⟩] : List Event).getLast (by decide)).time⟩ ∧
    Open (([⟨0, "o", "b"⟩, ⟨1/2, "i", "c"⟩] : List Event).foldl WriteEvent
          ⟨recordingFile sampleHeader [⟨1, "o", "a"⟩],
            (([⟨1, "o", "a"⟩] : List Event).getLast (by decide)).time⟩).file
        = .ok ⟨sampleHeader, ([⟨1, "o", "a"⟩] : List Event).map eventLine
            ++ ([⟨0, "o", "b"⟩, ⟨1/2, "i", "c"⟩] : List Event).map fun b =>
              FLine.json (eventJson
                (([⟨1, "o", "a"⟩] : List Event).getLast (by decide)).time b),
            true⟩ ∧
    readAllEvents true (([⟨1, "o", "a"⟩] : List Event).map eventLine
          ++ ([⟨0, "o", "b"⟩, ⟨1/2, "i", "c"⟩] : List Event).map fun b =>
            FLine.json (eventJson
              (([⟨1, "o", "a"⟩] : List Event).getLast (by decide)).time b))
        = (([⟨1, "o", "a"⟩] : List Event) ++ ([⟨0, "o", "b"⟩, ⟨1/2, "i", "c"⟩] : List Event).map
            (adjustEvent (([⟨1, "o", "a"⟩] : List Event).getLast (by decide)).time),
            none) ∧
    List.Chain' (· ≤ ·)
        ((([⟨1, "o", "a"⟩] : List Event) ++ ([⟨0, "o", "b"⟩, ⟨1/2, "i", "c"⟩] : List Event).map
          (adjustEvent (([⟨1, "o", "a"⟩] : List Event).getLast (by decide)).time)).map
            Event.time) ∧
    ∀ b ∈ ([⟨0, "o", "b"⟩, ⟨1/2, "i", "c"⟩] : List Event),
        (adjustEvent (([⟨1, "o", "a"⟩] : List Event).getLast (by decide)).time b).time
            = roundTimestamp (b.time
                + (([⟨1, "o", "a"⟩] : List Event).getLast (by decide)).time) ∧
        |(b.time + (([⟨1, "o", "a"⟩] : List Event).getLast (by decide)).time)
            - (adjustEvent
                (([⟨1, "o", "a"⟩] : List Event).getLast (by decide)).time b).time|
          < 1 / 1000000 :=
  C2_append_continuity sampleHeader sampleHeader [⟨1, "o", "a"⟩]
    [⟨0, "o", "b"⟩, ⟨1/2, "i", "c"⟩] (by decide) (by simp)
    (by norm_num [roundTimestamp, truncQ])
    (by intro b hb; fin_cases hb <;> norm_num)
    (by norm_num)

end Goasciinema
